import Mathlib

/-
Shallow embedding of src/rule_analysis.py (repository csams/rhat2).

The repository drives an external diagnostics framework (insights) over a
list of archives through a distributed map (dask) and aggregates the
results (pandas / sklearn).  The embedding keeps the control flow of the
Python functions and abstracts the external collaborators behind explicit
environment records:

  * `Env`      models the insights component registry and dependency-graph
               builder (dr.get_component, dr.get_dependency_graph, the
               RedHatRelease combiner).
  * `EvalEnv`  models, per archive, whether `extract` succeeds and what
               `dr.run` returns for each component.

Python dicts that the code builds by repeated assignment are modelled as
association lists with overwrite-in-place semantics (`dictInsert`), which
matches the key ordering and the size of a CPython dict.  Machine details
of pandas dtypes are kept only where the code observes them: a null in a
column that the declared schema types as bool is modelled as False by
`colVal` (the schema cast); no theorem below depends on that choice.
-/

namespace RuleAnalysis

/-- A component of the insights framework as this program observes it:
its defining module, its unqualified Python name, whether it is typed as a
condition or incident (is_type(c, condition) or is_type(c, incident)),
and whether it is typed as a rule (is_type(c, rule)). -/
structure Component where
  module : String
  name : String
  isCondIncident : Bool
  isRule : Bool
  deriving DecidableEq, Repr

/-- dr.get_name for a resolved component: the fully qualified
module.name identifier. -/
def get_name (c : Component) : String :=
  c.module ++ "." ++ c.name

/-- A value produced by the framework, reduced to the observations the
program makes on it: Python truthiness, get_key(), the class name,
whether it is an instance of make_response, and major/minor fields. -/
structure PyVal where
  truthy : Bool
  getKey : Option String
  className : String
  isMakeResponse : Bool
  major : Int
  minor : Int
  deriving DecidableEq, Repr

/-- The insights registry and dependency-graph builder as the program
uses them.  depGraph c is the key list, in insertion order, of the dict
dr.get_dependency_graph(c); redhatRelease is the RedHatRelease combiner
component. -/
structure Env where
  get_component : String → Option Component
  depGraph : Component → List Component
  redhatRelease : Component

/-- Per-archive behaviour of the external extraction and evaluation:
whether extract(archive) completes without raising or timing out, and
what mapping dr.run produces for the archive. -/
structure EvalEnv where
  extractOk : String → Bool
  results : String → Component → Option PyVal

/-- dr.get_component applied to the possibly absent --plugin argument:
the registry lookup returns None both for an absent name and for an
identifier with no registered component. -/
def dr_get_component (env : Env) : Option String → Option Component
  | some nm => env.get_component nm
  | none => none

/-- dr.get_name as main uses it on a possibly unresolved component:
insights falls back to str(component) for a non-callable, and
str(None) is the string None. -/
def dr_get_name : Option Component → String
  | some c => get_name c
  | none => "None"

/-- is_type(component, rule) as main uses it: False for None. -/
def is_rule_type : Option Component → Bool
  | some c => c.isRule
  | none => false

/-- Python str.rstrip: remove trailing whitespace characters. -/
def rstrip (s : String) : String :=
  String.mk ((s.data.reverse.dropWhile Char.isWhitespace).reverse)

/-- load_archives (src/rule_analysis.py lines 26-28): the file is its
list of raw lines as Python file iteration yields them; the loader
returns [l.rstrip() for l in f]. -/
def load_archives (fileLines : List String) : List String :=
  fileLines.map rstrip

/-- Overwrite-in-place assignment d[k] = v on a CPython dict modelled as
an association list: an existing key keeps its position and gets the new
value, a new key is appended.  The lists built this way have one pair
per key, so overwriting the first occurrence is overwriting the only
one. -/
def dictInsert : List (String × Option Bool) → String → Option Bool → List (String × Option Bool)
  | [], k, v => [(k, v)]
  | p :: rest, k, v => if p.1 = k then (k, v) :: rest else p :: dictInsert rest k v

/-- Dict lookup d.get(k) on the association-list model. -/
def dictLookup : List (String × Option Bool) → String → Option (Option Bool)
  | [], _ => none
  | p :: rest, k => if p.1 = k then some p.2 else dictLookup rest k

/-- The value extract_hits stores for one component: True for a non-None
truthy result, False for a non-None falsy result, None when the result
is absent. -/
def hitVal (results : Component → Option PyVal) (c : Component) : Option Bool :=
  match results c with
  | some v => some v.truthy
  | none => none

/-- Lexicographic code-point comparison of character lists — the order
Python uses to compare strings. -/
def charListLe : List Char → List Char → Bool
  | [], _ => true
  | _ :: _, [] => false
  | a :: as, b :: bs => if a < b then true else if b < a then false else charListLe as bs

/-- Lexicographic code-point comparison of strings. -/
def strLe (s t : String) : Bool :=
  charListLe s.data t.data

/-- Stable insertion of a component into a get_name-sorted list: the
inserted element, which comes earlier in the original list, stays in
front of elements with an equal key. -/
def insertSorted (c : Component) : List Component → List Component
  | [] => [c]
  | x :: xs => if strLe (get_name c) (get_name x) then c :: x :: xs else x :: insertSorted c xs

/-- sorted(components, key=dr.get_name): a stable sort by the fully
qualified name.  A stable sort by a fixed key is unique, so stable
insertion sort agrees with the Python sorted builtin. -/
def sortComponents (components : List Component) : List Component :=
  components.foldr insertSorted []

/-- Stable insertion of a string into a sorted list of strings. -/
def insertStr (s : String) : List String → List String
  | [] => [s]
  | x :: xs => if strLe s x then s :: x :: xs else x :: insertStr s xs

/-- sorted on a list of strings, as a stable insertion sort. -/
def sortStrings (l : List String) : List String :=
  l.foldr insertStr []

/-- extract_hits (src/rule_analysis.py lines 31-39): iterate the
components in get_name-sorted order and assign
hits[c.__name__] = True / False / None into a fresh dict. -/
def extract_hits (components : List Component) (results : Component → Option PyVal) :
    List (String × Option Bool) :=
  (sortComponents components).foldl
    (fun hits c => dictInsert hits c.name (hitVal results c)) []

/-- The process-wide DEP_CACHE (src/rule_analysis.py line 42), a dict
from rule function to the pair (dependency graph, boolean deps). -/
abbrev Cache := List (Component × (List Component × List Component))

/-- Lookup in the DEP_CACHE model. -/
def cacheLookup : Cache → Component → Option (List Component × List Component)
  | [], _ => none
  | (k, v) :: rest, r => if k = r then some v else cacheLookup rest r

/-- graph.update(other): dict update on the key lists — existing keys
keep their position, new keys of the second dict are appended in order. -/
def dictUpdateKeys (g1 g2 : List Component) : List Component :=
  g1 ++ g2.filter (fun c => ¬ g1.contains c)

/-- The uncached _get_deps (src/rule_analysis.py lines 45-50): union the
dependency graph of the rule with the graph of RedHatRelease, then
select the condition/incident components in graph order. -/
def _get_deps (env : Env) (rule_func : Component) : List Component × List Component :=
  let graph := dictUpdateKeys (env.depGraph rule_func) (env.depGraph env.redhatRelease)
  let deps := graph.filter (fun c => c.isCondIncident)
  (graph, deps)

/-- get_deps (src/rule_analysis.py lines 53-56): consult DEP_CACHE, on a
miss compute _get_deps and store it, and return the stored entry. -/
def get_deps (env : Env) (cache : Cache) (rule_func : Component) :
    (List Component × List Component) × Cache :=
  match cacheLookup cache rule_func with
  | some v => (v, cache)
  | none =>
    let v := _get_deps env rule_func
    (v, cache ++ [(rule_func, v)])

/-- The flat per-archive record get_rule_hit_info builds: in the source
it is one dict holding the hit columns followed by the fixed keys
archive, key, type, make_fail, major, minor; the fixed keys are fields
here. -/
structure HitRecord where
  hits : List (String × Option Bool)
  archive : String
  key : Option String
  type : Option String
  make_fail : Bool
  major : Int
  minor : Int
  deriving DecidableEq, Repr

/-- get_rule_hit_info (src/rule_analysis.py lines 62-93), as a function
of the per-process DEP_CACHE it reads and writes through get_deps.  The
body has no exception handling: a component-resolution failure or an
extraction failure (including a timeout) propagates as an error.  The
truthiness tests rule_result and rhr of the source guard the key, type,
make_fail and major/minor fields. -/
def get_rule_hit_info (env : Env) (eenv : EvalEnv) (cache : Cache)
    (archive : String) (rule_name : String) :
    Except String HitRecord × Cache :=
  match env.get_component rule_name with
  | none => (Except.error "component resolution raised", cache)
  | some rule_func =>
    let gd := get_deps env cache rule_func
    let bool_deps := gd.1.2
    let cache := gd.2
    if eenv.extractOk archive then
      let results := eenv.results archive
      let rule_result := results rule_func
      let rhr := results env.redhatRelease
      let record : HitRecord :=
        { hits := extract_hits bool_deps results
          archive := archive
          key := match rule_result with
                 | some v => if v.truthy then v.getKey else none
                 | none => none
          type := match rule_result with
                  | some v => if v.truthy then some v.className else none
                  | none => none
          make_fail := match rule_result with
                       | some v => v.truthy && v.isMakeResponse
                       | none => false
          major := match rhr with
                   | some v => if v.truthy then v.major else -1
                   | none => -1
          minor := match rhr with
                   | some v => if v.truthy then v.minor else -1
                   | none => -1 }
      (Except.ok record, cache)
    else
      (Except.error "archive extraction raised", cache)

/-- Structural worker for chunks, recursing on fuel so the kernel can
evaluate it; chunks supplies fuel covering the whole list. -/
def chunksFuel : Nat → Nat → List String → List (List String)
  | 0, _, _ => []
  | _ + 1, _, [] => []
  | fuel + 1, n, x :: xs => (x :: xs.take (n - 1)) :: chunksFuel fuel n (xs.drop (n - 1))

/-- Partitioning of the archive list into chunks of part_size (dask
from_sequence with partition_size, toolz partition_all): successive
chunks of that size in order, the last one possibly shorter.  A zero
size degenerates to chunks of one; the program only uses sizes 1 and
10. -/
def chunks (n : Nat) (l : List String) : List (List String) :=
  chunksFuel l.length n l

/-- Sequential evaluation of the archives of one partition; the first
raised exception propagates and discards the partition. -/
def evalSeq (g : String → Except String HitRecord) : List String → Except String (List HitRecord)
  | [] => Except.ok []
  | a :: rest =>
    match g a, evalSeq g rest with
    | Except.ok r, Except.ok rs => Except.ok (r :: rs)
    | Except.error e, _ => Except.error e
    | Except.ok _, Except.error e => Except.error e

/-- Concatenation of two partition results, with the error of an earlier
partition taking precedence — an exception in any task aborts the whole
computed result, as dask surfaces the first task failure from compute or
persist instead of delivering the frame. -/
def combinePartitions :
    Except String (List HitRecord) → Except String (List HitRecord) →
    Except String (List HitRecord)
  | Except.ok a, Except.ok b => Except.ok (a ++ b)
  | Except.error e, _ => Except.error e
  | Except.ok _, Except.error e => Except.error e

/-- Assembly of all partition results into the computed table. -/
def mapPartitions (g : String → Except String HitRecord) :
    List (List String) → Except String (List HitRecord)
  | [] => Except.ok []
  | p :: ps => combinePartitions (evalSeq g p) (mapPartitions g ps)

/-- One worker-side task: get_rule_hit_info runs in a worker process
whose own DEP_CACHE starts empty; the rule travels by qualified name. -/
def workerTask (env : Env) (eenv : EvalEnv) (rule_name : String) (archive : String) :
    Except String HitRecord :=
  (get_rule_hit_info env eenv [] archive rule_name).1

/-- run_rule (src/rule_analysis.py lines 96-112) observed at the point
its lazy dataframe is computed.  The coordinator calls the uncached
_get_deps for the schema, partitions the archive list, and maps
get_rule_hit_info with the qualified rule name over the partitions.  The
coordinator DEP_CACHE is in scope but untouched, so it is threaded
through unchanged. -/
def run_rule (env : Env) (eenv : EvalEnv) (cache : Cache) (archives : List String)
    (rule_func : Component) (part_size : Nat) :
    Except String (List HitRecord) × Cache :=
  let gd := _get_deps env rule_func
  let bool_dep_names := sortStrings (gd.2.map Component.name)
  let _meta : List String :=
    bool_dep_names ++ ["archive", "key", "type", "major", "minor", "make_fail"]
  let parts := chunks part_size archives
  (mapPartitions (workerTask env eenv (get_name rule_func)) parts, cache)

/-- Access to a boolean column of the assembled dataframe: make_fail is
its own field, a hit column is looked up in the hit dict.  A null (or a
column the record never set) lands in a column the declared schema types
as bool; the cast is modelled as False. -/
def colVal (r : HitRecord) (c : String) : Bool :=
  if c = "make_fail" then r.make_fail
  else match dictLookup r.hits c with
       | some (some b) => b
       | some none => false
       | none => false

/-- Number of rows of the local boolean table on which two columns
disagree — the numerator of the hamming distance between the two
column vectors. -/
def disagreements (table : List HitRecord) (a b : String) : Nat :=
  (table.filter (fun r => colVal r a != colVal r b)).length

/-- One entry of jac_sim = 1 - pairwise_distances(parts.T, metric=hamming):
one minus the fraction of archives on which the two columns disagree. -/
def similarityFn (table : List HitRecord) (a b : String) : ℚ :=
  1 - (disagreements table a b : ℚ) / (table.length : ℚ)

/-- The aggregate report analyze assembles (src/rule_analysis.py lines
144-151).  The nested output dicts are modelled as count functions: the
count for a major version and a column, and so on; simCols records the
row and column order of the similarity matrix. -/
structure Report where
  num_archives : Nat
  num_archives_by_rhel : Int → Nat
  hits_by_rhel : Int → String → Nat
  hits_by_vtk : Int → Option String → Option String → Nat
  grand_totals : String → Nat
  simCols : List String
  similarity : String → String → ℚ

/-- The report value analyze assembles once every distributed aggregate
is materialized: counts, per-major sums of the boolean columns in graph
order plus make_fail, grouped sizes, grand totals and the similarity
matrix.  The column list comes from the uncached _get_deps in graph
order, not sorted. -/
def buildReport (env : Env) (table : List HitRecord) (rule_func : Component) : Report :=
  let gd := _get_deps env rule_func
  let cols := gd.2.map Component.name ++ ["make_fail"]
  { num_archives := table.length
    num_archives_by_rhel := fun m => (table.filter (fun r => r.major == m)).length
    hits_by_rhel := fun m c => (table.filter (fun r => r.major == m && colVal r c)).length
    hits_by_vtk := fun m t k =>
      (table.filter (fun r => r.major == m && r.type == t && r.key == k)).length
    grand_totals := fun c => (table.filter (fun r => colVal r c)).length
    simCols := cols
    similarity := similarityFn table }

/-- analyze (src/rule_analysis.py lines 115-153) on the computed table.
It aggregates counts, pulls the boolean columns and hands their
transpose to pairwise_distances.  With zero rows the transposed sample
matrix has zero feature columns and the sklearn input validation raises,
so the empty table yields an error, not a report.  The coordinator
DEP_CACHE is in scope but untouched, so it is threaded through
unchanged. -/
def analyze (env : Env) (cache : Cache) (table : List HitRecord) (rule_func : Component) :
    Except String Report × Cache :=
  let result :=
    if table.length = 0 then
      Except.error "pairwise_distances rejected an empty sample matrix"
    else
      Except.ok (buildReport env table rule_func)
  (result, cache)

/-- Observable outcome of one invocation of main: what was printed, the
computed hit table if the run reached the map stage, and the report
value if the run reached the aggregator. -/
structure MainOut where
  printed : List String
  ran : Option (Except String (List HitRecord))
  report : Option (Except String Report)
  cache : Cache

/-- main (src/rule_analysis.py lines 156-169): resolve the plugin,
diagnose and return early when it is not a rule, otherwise load the
archives, run the rule with the default partition size 10, and
aggregate. -/
def main (env : Env) (eenv : EvalEnv) (cache : Cache)
    (plugin : Option String) (inputLines : List String) : MainOut :=
  let rule_func := dr_get_component env plugin
  if is_rule_type rule_func then
    match rule_func with
    | some rf =>
      let archives := load_archives inputLines
      let hd := run_rule env eenv cache archives rf 10
      match hd.1 with
      | Except.ok table =>
        let an := analyze env hd.2 table rf
        { printed := [], ran := some (Except.ok table), report := some an.1, cache := an.2 }
      | Except.error e =>
        { printed := [], ran := some (Except.error e),
          report := some (Except.error e), cache := hd.2 }
    | none =>
      { printed := [dr_get_name rule_func ++ " is not a rule."],
        ran := none, report := none, cache := cache }
  else
    { printed := [dr_get_name rule_func ++ " is not a rule."],
      ran := none, report := none, cache := cache }

/-- Concrete condition X of the two-dependency demo rule. -/
def compX : Component := { module := "examples.rules", name := "X", isCondIncident := true, isRule := false }

/-- Concrete condition Y of the two-dependency demo rule. -/
def compY : Component := { module := "examples.rules", name := "Y", isCondIncident := true, isRule := false }

/-- The demo rule with boolean dependencies X and Y. -/
def compR : Component := { module := "examples.rules.demo", name := "report", isCondIncident := false, isRule := true }

/-- The RedHatRelease combiner component. -/
def compRHR : Component := { module := "insights.combiners.redhat_release", name := "RedHatRelease", isCondIncident := false, isRule := false }

/-- Registry and dependency graphs of the demo rule: the graph of the
rule holds X, Y and the rule itself, the graph of RedHatRelease holds
only itself. -/
def envDemo : Env :=
  { get_component := fun nm => if nm = "examples.rules.demo.report" then some compR else none
    depGraph := fun c =>
      if c = compR then [compX, compY, compR]
      else if c = compRHR then [compRHR]
      else [c]
    redhatRelease := compRHR }

/-- A RedHatRelease evaluation result with the given major version. -/
def rhrVal (m : Int) : PyVal :=
  { truthy := true, getKey := none, className := "RedHatRelease", isMakeResponse := false,
    major := m, minor := 0 }

/-- A boolean condition result with the given truthiness. -/
def condVal (b : Bool) : PyVal :=
  { truthy := b, getKey := none, className := "bool", isMakeResponse := false,
    major := 0, minor := 0 }

/-- End-to-end scenario 1 of the spec: extraction always succeeds,
a.tar evaluates to X=True, Y=False, major=8 and b.tar to X=False,
Y=False, major=8; the rule itself produces no result. -/
def eenvScenario : EvalEnv :=
  { extractOk := fun _ => true
    results := fun a c =>
      if c = compRHR then some (rhrVal 8)
      else if a = "a.tar" then
        (if c = compX then some (condVal true)
         else if c = compY then some (condVal false) else none)
      else
        (if c = compX then some (condVal false)
         else if c = compY then some (condVal false) else none) }

/-- The computed map-stage result of scenario 1. -/
def scenarioRun : Except String (List HitRecord) :=
  (run_rule envDemo eenvScenario [] ["a.tar", "b.tar"] compR 10).1

/-- Fallback report used only to destructure the scenario result; its
similarity is constantly zero, so the scenario theorems below cannot be
satisfied by the fallback. -/
def emptyReport : Report :=
  { num_archives := 0
    num_archives_by_rhel := fun _ => 0
    hits_by_rhel := fun _ _ => 0
    hits_by_vtk := fun _ _ _ => 0
    grand_totals := fun _ => 0
    simCols := []
    similarity := fun _ _ => 0 }

/-- The computed hit table of scenario 1. -/
def scenarioTable : List HitRecord :=
  match scenarioRun with
  | Except.ok table => table
  | Except.error _ => []

/-- The report of scenario 1: the map stage followed by analyze. -/
def scenarioReport : Report :=
  match (analyze envDemo [] scenarioTable compR).1 with
  | Except.ok r => r
  | Except.error _ => emptyReport

/-- An evaluation environment in which extracting bad.tar raises (or
times out) while every other archive extracts cleanly and evaluates to
nothing. -/
def eenvBad : EvalEnv :=
  { extractOk := fun a => a != "bad.tar"
    results := fun _ _ => none }

/-- A condition from a different module that shares the unqualified
name X with compX. -/
def compX2 : Component := { module := "other.rules", name := "X", isCondIncident := true, isRule := false }

/-- An input list file: three raw lines as Python file iteration yields
them — an archive, a blank line, and an archive with leading
whitespace. -/
def c4File : List String := ["a.tar\n", "\n", "  b.tar\n"]

/-- A minimal hit record used to instantiate general theorems. -/
def demoRecord : HitRecord :=
  { hits := [], archive := "a", key := none, type := none,
    make_fail := false, major := -1, minor := -1 }

/-- The last component of the list carrying the given unqualified name,
starting from a default answer; folds in list order so a later match
replaces an earlier one. -/
def lastWithNameFrom (a : Option Component) (cs : List Component) (n : String) : Option Component :=
  cs.foldl (fun acc c => if c.name = n then some c else acc) a

/-- The last component of the list carrying the given unqualified
name. -/
def lastWithName (cs : List Component) (n : String) : Option Component :=
  lastWithNameFrom none cs n

/-- C1: the claim says an archive whose extraction raises still yields a
record with the archive reference and null check columns while the rest
of the batch completes.  The code has no exception handling around
extract, so the raised exception propagates out of the task and the
whole computed map-stage result is the error: no record for bad.tar and
no record for its sibling good.tar is delivered. -/
theorem c1_extraction_failure_aborts_batch :
    (run_rule envDemo eenvBad [] ["good.tar", "bad.tar"] compR 10).1
      = Except.error "archive extraction raised" := by
  rfl

/-- C2: the claim says the aggregator returns a defined report for the
empty archive list.  The code reaches pairwise_distances with a zero-row
boolean table whose transpose has zero feature columns, which the
sklearn input validation rejects, so analyze raises instead of returning
a report. -/
theorem c2_empty_input_raises :
    (analyze envDemo [] ([] : List HitRecord) compR).1
      = Except.error "pairwise_distances rejected an empty sample matrix" := by
  rfl

/-- C3 counterexample: in scenario 1 the two columns X = [True, False]
and Y = [False, False] disagree on one of the two rows, so the hamming
distance is 1/2 and the similarity is 1/2, not 0.0 as the claim
states. -/
theorem c3_counterexample : ¬ (scenarioReport.similarity "X" "Y" = 0) := by
  have e : scenarioReport.similarity "X" "Y"
      = 1 - (disagreements scenarioTable "X" "Y" : ℚ) / (scenarioTable.length : ℚ) := rfl
  rw [e, show disagreements scenarioTable "X" "Y" = 1 from by decide,
      show scenarioTable.length = 2 from by decide]
  norm_num

/-- C3 amended: for the scenario input the report has num_archives = 2,
one hit of X and no hit of Y among the major-8 archives, and
similarity[X][Y] = 1/2 (the columns disagree on one of the two rows, so
the hamming distance is 1/2 and the similarity is 1 - 1/2). -/
theorem c3_amended_report :
    scenarioReport.num_archives = 2 ∧
    scenarioReport.hits_by_rhel 8 "X" = 1 ∧
    scenarioReport.hits_by_rhel 8 "Y" = 0 ∧
    scenarioReport.similarity "X" "Y" = 1 / 2 := by
  refine ⟨by decide, by decide, by decide, ?_⟩
  have e : scenarioReport.similarity "X" "Y"
      = 1 - (disagreements scenarioTable "X" "Y" : ℚ) / (scenarioTable.length : ℚ) := rfl
  rw [e, show disagreements scenarioTable "X" "Y" = 1 from by decide,
      show scenarioTable.length = 2 from by decide]
  norm_num

/-- C4 counterexample: the loader keeps blank lines as empty entries and
keeps leading whitespace, so its output is not the sequence of non-empty
trimmed lines the claim describes. -/
theorem c4_counterexample :
    load_archives c4File = ["a.tar", "", "  b.tar"] ∧
    "" ∈ load_archives c4File ∧ "  b.tar" ∈ load_archives c4File := by
  refine ⟨by rfl, by decide, by decide⟩

/-- Helper: the head of dropWhile does not satisfy the predicate. -/
theorem head_dropWhile_false {α : Type} (p : α → Bool) :
    ∀ (l : List α) (a : α), (l.dropWhile p).head? = some a → p a = false := by
  intro l
  induction l with
  | nil => intro a h; simp [List.dropWhile] at h
  | cons x xs ih =>
    intro a h
    rw [List.dropWhile_cons] at h
    by_cases hp : p x = true
    · rw [if_pos hp] at h
      exact ih a h
    · rw [if_neg hp] at h
      simp only [List.head?_cons, Option.some.injEq] at h
      subst h
      cases hpx : p x with
      | false => rfl
      | true => exact absurd hpx hp

/-- Helper: rstrip leaves no trailing whitespace character. -/
theorem rstrip_last_not_whitespace (s : String) (c : Char)
    (h : (rstrip s).data.getLast? = some c) : c.isWhitespace = false := by
  unfold rstrip at h
  rw [show (String.mk ((s.data.reverse.dropWhile Char.isWhitespace).reverse)).data
        = (s.data.reverse.dropWhile Char.isWhitespace).reverse from rfl] at h
  rw [List.getLast?_reverse] at h
  exact head_dropWhile_false Char.isWhitespace s.data.reverse c h

/-- C4 amended: the loader returns one entry per line of the file, in
file order, each being that line with trailing whitespace stripped; no
entry carries trailing whitespace, while blank lines yield empty entries
and leading whitespace is preserved. -/
theorem c4_amended_loader (fileLines : List String) :
    (load_archives fileLines).length = fileLines.length ∧
    (∀ i : Nat, (load_archives fileLines)[i]? = (fileLines[i]?).map rstrip) ∧
    (∀ s ∈ load_archives fileLines, ∀ c, s.data.getLast? = some c → c.isWhitespace = false) := by
  refine ⟨List.length_map _ _, fun i => List.getElem?_map _ _ _, ?_⟩
  intro s hs c hc
  rw [load_archives, List.mem_map] at hs
  obtain ⟨t, _, rfl⟩ := hs
  exact rstrip_last_not_whitespace t c hc

/-- Witness for the amended C4 theorem at a concrete file. -/
theorem c4_amended_witness :
    (load_archives ["x.tar \n"]).length = 1 ∧
    (load_archives ["x.tar \n"])[0]? = some (rstrip "x.tar \n") ∧
    ('r').isWhitespace = false := by
  have h := c4_amended_loader ["x.tar \n"]
  exact ⟨h.1, by rw [h.2.1 0]; rfl, h.2.2 "x.tar" (by decide) 'r' (by decide)⟩

/-- C5: whenever the plugin argument is absent or does not resolve to a
rule, main prints the qualified-name-is-not-a-rule diagnostic (with
str(None) standing in for the name when resolution returned None) and
returns early: no archive is evaluated, no report is produced, and the
run ends without an uncaught exception. -/
theorem c5_nonrule_early_return (env : Env) (eenv : EvalEnv) (cache : Cache)
    (plugin : Option String) (inputLines : List String)
    (h : is_rule_type (dr_get_component env plugin) = false) :
    (main env eenv cache plugin inputLines).ran = none ∧
    (main env eenv cache plugin inputLines).report = none ∧
    (main env eenv cache plugin inputLines).printed
      = [dr_get_name (dr_get_component env plugin) ++ " is not a rule."] := by
  simp [main, h]

/-- Witness for C5 at the absent plugin argument. -/
theorem c5_witness :
    (main envDemo eenvBad [] none []).ran = none ∧
    (main envDemo eenvBad [] none []).report = none ∧
    (main envDemo eenvBad [] none []).printed = ["None is not a rule."] := by
  have h := c5_nonrule_early_return envDemo eenvBad [] none [] (by rfl)
  exact ⟨h.1, h.2.1, h.2.2⟩

/-- Helper: appending a fresh cache entry makes it visible to lookup. -/
theorem cacheLookup_append_self (cache : Cache) (r : Component)
    (v : List Component × List Component) (h : cacheLookup cache r = none) :
    cacheLookup (cache ++ [(r, v)]) r = some v := by
  induction cache with
  | nil => simp [cacheLookup]
  | cons p rest ih =>
    obtain ⟨k, w⟩ := p
    by_cases hk : k = r
    · simp [cacheLookup, hk] at h
    · rw [List.cons_append]
      simp only [cacheLookup, if_neg hk] at h ⊢
      exact ih h

/-- C8: after a first call of get_deps on a rule absent from DEP_CACHE,
the returned pair is the fresh _get_deps recomputation, and a second
call in the same process is a cache hit: it returns exactly the stored
pair and leaves the cache unchanged. -/
theorem c8_dep_cache_hit (env : Env) (cache : Cache) (r : Component)
    (h : cacheLookup cache r = none) :
    (get_deps env cache r).1 = _get_deps env r ∧
    get_deps env (get_deps env cache r).2 r
      = ((get_deps env cache r).1, (get_deps env cache r).2) := by
  have h1 : get_deps env cache r = (_get_deps env r, cache ++ [(r, _get_deps env r)]) := by
    simp [get_deps, h]
  refine ⟨by rw [h1], ?_⟩
  rw [h1]
  simp [get_deps, cacheLookup_append_self cache r _ h]

/-- Witness for C8 on the demo rule with an empty cache. -/
theorem c8_witness :
    (get_deps envDemo [] compR).1 = _get_deps envDemo compR ∧
    get_deps envDemo (get_deps envDemo [] compR).2 compR
      = ((get_deps envDemo [] compR).1, (get_deps envDemo [] compR).2) :=
  c8_dep_cache_hit envDemo [] compR (by rfl)

/-- C6: on every nonempty hit-record table the aggregator returns a
report whose similarity matrix is the function one minus the fraction of
archives on which the two columns disagree; that matrix is symmetric and
every diagonal entry equals 1. -/
theorem c6_similarity_symmetric_diag (env : Env) (cache : Cache)
    (table : List HitRecord) (rf : Component) (h : table ≠ []) :
    ((analyze env cache table rf).1 = Except.ok (buildReport env table rf) ∧
      (buildReport env table rf).similarity = similarityFn table) ∧
    (∀ a b, similarityFn table a b = similarityFn table b a) ∧
    (∀ c, similarityFn table c c = 1) := by
  have hlen : ¬ table.length = 0 := by
    simpa [List.length_eq_zero] using h
  refine ⟨⟨by simp [analyze, hlen], rfl⟩, ?_, ?_⟩
  · intro a b
    have hfil : (table.filter fun r => colVal r a != colVal r b)
        = (table.filter fun r => colVal r b != colVal r a) :=
      List.filter_congr (fun r _ => by cases colVal r a <;> cases colVal r b <;> rfl)
    unfold similarityFn disagreements
    rw [hfil]
  · intro c
    have hfil : (table.filter fun r => colVal r c != colVal r c) = [] :=
      List.filter_eq_nil_iff.mpr (fun r _ => by simp)
    unfold similarityFn disagreements
    rw [hfil]
    simp

/-- Witness for C6 on a one-row table. -/
theorem c6_witness :
    (analyze envDemo [] [demoRecord] compR).1
      = Except.ok (buildReport envDemo [demoRecord] compR) ∧
    similarityFn [demoRecord] "X" "Y" = similarityFn [demoRecord] "Y" "X" ∧
    similarityFn [demoRecord] "make_fail" "make_fail" = 1 := by
  have h := c6_similarity_symmetric_diag envDemo [] [demoRecord] compR (by simp)
  exact ⟨h.1.1, h.2.1 "X" "Y", h.2.2 "make_fail"⟩

/-- Helper: an ok-empty partition result is a left identity of the
partition combination. -/
theorem combinePartitions_ok_nil_left (x : Except String (List HitRecord)) :
    combinePartitions (Except.ok []) x = x := by
  cases x <;> simp [combinePartitions]

/-- Helper: sequential evaluation splits over list append the way
partition results combine. -/
theorem evalSeq_append (g : String → Except String HitRecord) (l1 l2 : List String) :
    evalSeq g (l1 ++ l2) = combinePartitions (evalSeq g l1) (evalSeq g l2) := by
  induction l1 with
  | nil => simp [evalSeq, combinePartitions_ok_nil_left]
  | cons a l1 ih =>
    rw [List.cons_append]
    show (match g a, evalSeq g (l1 ++ l2) with
          | Except.ok r, Except.ok rs => Except.ok (r :: rs)
          | Except.error e, _ => Except.error e
          | Except.ok _, Except.error e => Except.error e)
        = combinePartitions (evalSeq g (a :: l1)) (evalSeq g l2)
    rw [ih]
    show _ = combinePartitions
        (match g a, evalSeq g l1 with
         | Except.ok r, Except.ok rs => Except.ok (r :: rs)
         | Except.error e, _ => Except.error e
         | Except.ok _, Except.error e => Except.error e) (evalSeq g l2)
    cases g a <;> cases evalSeq g l1 <;> cases evalSeq g l2 <;> simp [combinePartitions]

/-- Helper: assembling the partitioned evaluation equals evaluating the
unpartitioned archive list, for any fuel covering the list. -/
theorem mapPartitions_chunksFuel (g : String → Except String HitRecord) (k : Nat) :
    ∀ (fuel : Nat) (l : List String), l.length ≤ fuel →
      mapPartitions g (chunksFuel fuel k l) = evalSeq g l := by
  intro fuel
  induction fuel with
  | zero =>
    intro l hl
    have hnil : l = [] := List.eq_nil_of_length_eq_zero (Nat.le_zero.mp hl)
    subst hnil
    rfl
  | succ f ih =>
    intro l hl
    cases l with
    | nil => rfl
    | cons x xs =>
      show combinePartitions (evalSeq g (x :: xs.take (k - 1)))
          (mapPartitions g (chunksFuel f k (xs.drop (k - 1)))) = evalSeq g (x :: xs)
      rw [ih (xs.drop (k - 1)) (by
        have hx := hl
        simp only [List.length_cons] at hx
        simp only [List.length_drop]
        omega)]
      rw [← evalSeq_append]
      have hsplit : (x :: xs.take (k - 1)) ++ xs.drop (k - 1) = x :: xs := by
        rw [List.cons_append, List.take_append_drop]
      rw [hsplit]

/-- Helper: the partitioned map stage computes the same result as the
unpartitioned sequential evaluation, for every partition size. -/
theorem mapPartitions_chunks (g : String → Except String HitRecord) (k : Nat)
    (l : List String) : mapPartitions g (chunks k l) = evalSeq g l :=
  mapPartitions_chunksFuel g k l.length l le_rfl

/-- C7: the computed map-stage result with partition size 1 equals the
one with the default partition size 10, and therefore the aggregate
report computed from either is the same: the report is invariant under
how the archive list is partitioned. -/
theorem c7_partition_invariance (env : Env) (eenv : EvalEnv) (cache : Cache)
    (archives : List String) (rf : Component) :
    run_rule env eenv cache archives rf 1 = run_rule env eenv cache archives rf 10 ∧
    (run_rule env eenv cache archives rf 1).1.map (fun t => (analyze env cache t rf).1)
      = (run_rule env eenv cache archives rf 10).1.map (fun t => (analyze env cache t rf).1) := by
  have h : run_rule env eenv cache archives rf 1 = run_rule env eenv cache archives rf 10 := by
    show (mapPartitions (workerTask env eenv (get_name rf)) (chunks 1 archives), cache)
        = (mapPartitions (workerTask env eenv (get_name rf)) (chunks 10 archives), cache)
    rw [mapPartitions_chunks, mapPartitions_chunks]
  exact ⟨h, by rw [h]⟩

/-- C10: run_rule and analyze, which call the uncached _get_deps
directly, neither read nor write the coordinator DEP_CACHE: they return
it unchanged and their results do not depend on it; get_rule_hit_info is
the one place whose cache effect is exactly the get_deps population for
the resolved rule. -/
theorem c10_coordinator_cache_frame (env : Env) (eenv : EvalEnv) (cache cache2 : Cache)
    (archives : List String) (rf : Component) (n : Nat)
    (table : List HitRecord) (a rn : String) :
    (run_rule env eenv cache archives rf n).2 = cache ∧
    (run_rule env eenv cache archives rf n).1 = (run_rule env eenv cache2 archives rf n).1 ∧
    (analyze env cache table rf).2 = cache ∧
    (analyze env cache table rf).1 = (analyze env cache2 table rf).1 ∧
    (get_rule_hit_info env eenv cache a rn).2
      = (match env.get_component rn with
         | some rfc => (get_deps env cache rfc).2
         | none => cache) := by
  refine ⟨rfl, rfl, rfl, rfl, ?_⟩
  cases hc : env.get_component rn with
  | none => simp [get_rule_hit_info, hc]
  | some rfc =>
    simp only [get_rule_hit_info, hc]
    by_cases he : eenv.extractOk a <;> simp [he]

/-- Helper: lookup after an overwrite-in-place insert sees the new
value at the inserted key and is unchanged elsewhere. -/
theorem dictLookup_insert (d : List (String × Option Bool)) (k k2 : String) (v : Option Bool) :
    dictLookup (dictInsert d k v) k2 = if k2 = k then some v else dictLookup d k2 := by
  induction d with
  | nil =>
    show dictLookup [(k, v)] k2 = if k2 = k then some v else dictLookup [] k2
    by_cases h : k2 = k
    · rw [if_pos h, dictLookup, if_pos h.symm]
    · rw [if_neg h]
      show (if k = k2 then some v else dictLookup [] k2) = dictLookup [] k2
      rw [if_neg (fun hh : k = k2 => h hh.symm)]
  | cons p rest ih =>
    by_cases h1 : p.1 = k
    · show dictLookup (if p.1 = k then (k, v) :: rest else p :: dictInsert rest k v) k2 = _
      rw [if_pos h1]
      by_cases h2 : k2 = k
      · rw [dictLookup, if_pos h2.symm, if_pos h2]
      · rw [dictLookup, if_neg (fun hh => h2 hh.symm), if_neg h2,
            dictLookup, if_neg (fun hh => h2 (h1 ▸ hh).symm)]
    · show dictLookup (if p.1 = k then (k, v) :: rest else p :: dictInsert rest k v) k2 = _
      rw [if_neg h1]
      by_cases h2 : p.1 = k2
      · have h3 : ¬ (k2 = k) := fun hh => h1 (h2.trans hh)
        rw [dictLookup, if_pos h2, if_neg h3, dictLookup, if_pos h2]
      · rw [dictLookup, if_neg h2, ih]
        by_cases h3 : k2 = k
        · rw [if_pos h3, if_pos h3]
        · rw [if_neg h3, if_neg h3, dictLookup, if_neg h2]

/-- Helper: an insert grows the dict by one entry exactly when the key
is new. -/
theorem length_dictInsert (d : List (String × Option Bool)) (k : String) (v : Option Bool) :
    (dictInsert d k v).length
      = if (dictLookup d k).isSome then d.length else d.length + 1 := by
  induction d with
  | nil => rfl
  | cons p rest ih =>
    by_cases h : p.1 = k
    · show (if p.1 = k then (k, v) :: rest else p :: dictInsert rest k v).length = _
      rw [if_pos h, dictLookup, if_pos h]
      rfl
    · show (if p.1 = k then (k, v) :: rest else p :: dictInsert rest k v).length = _
      rw [if_neg h, dictLookup, if_neg h]
      show (dictInsert rest k v).length + 1 = _
      rw [ih]
      by_cases h2 : (dictLookup rest k).isSome
      · rw [if_pos h2, if_pos h2]
        rfl
      · rw [if_neg h2, if_neg h2]
        rfl

/-- Helper: a later assignment into the fold result wins over the fold
start. -/
theorem lastWithNameFrom_override (n : String) :
    ∀ (cs : List Component) (a : Option Component),
      lastWithNameFrom a cs n
        = match lastWithName cs n with
          | some c2 => some c2
          | none => a := by
  intro cs
  induction cs with
  | nil => intro a; rfl
  | cons c cs ih =>
    intro a
    show lastWithNameFrom (if c.name = n then some c else a) cs n = _
    rw [ih]
    have hR : lastWithName (c :: cs) n
        = match lastWithName cs n with
          | some c2 => some c2
          | none => if c.name = n then some c else none := by
      show lastWithNameFrom (if c.name = n then some c else none) cs n = _
      rw [ih]
    rw [hR]
    cases lastWithName cs n with
    | some c2 => rfl
    | none => by_cases hc : c.name = n <;> simp [hc]

/-- Helper: if no element of the list carries the name, the fold keeps
its start. -/
theorem lastWithNameFrom_no_match (n : String) :
    ∀ (cs : List Component) (a : Option Component),
      (∀ c2 ∈ cs, c2.name ≠ n) → lastWithNameFrom a cs n = a := by
  intro cs
  induction cs with
  | nil => intro a _; rfl
  | cons c cs ih =>
    intro a hno
    show lastWithNameFrom (if c.name = n then some c else a) cs n = a
    rw [if_neg (hno c (List.mem_cons_self c cs))]
    exact ih a (fun c2 h2 => hno c2 (List.mem_cons_of_mem c h2))

/-- Helper: under pairwise distinct names, the component owning a name
is the last (indeed only) one with it. -/
theorem lastWithName_unique (c : Component) :
    ∀ (cs : List Component), (cs.map Component.name).Nodup → c ∈ cs →
      lastWithName cs c.name = some c := by
  intro cs
  induction cs with
  | nil => intro _ hc; simp at hc
  | cons c0 cs ih =>
    intro hnd hc
    rw [List.map_cons, List.nodup_cons] at hnd
    rcases List.mem_cons.mp hc with rfl | hmem
    · show lastWithNameFrom (if c.name = c.name then some c else none) cs c.name = some c
      rw [if_pos rfl]
      refine lastWithNameFrom_no_match c.name cs (some c) (fun c2 h2 hn => hnd.1 ?_)
      rw [← hn]
      exact List.mem_map_of_mem Component.name h2
    · show lastWithNameFrom (if c0.name = c.name then some c0 else none) cs c.name = some c
      have hne : c0.name ≠ c.name := by
        intro hh
        exact hnd.1 (hh ▸ List.mem_map_of_mem Component.name hmem)
      rw [if_neg hne]
      exact ih hnd.2 hmem

/-- Helper: lookup after the hits fold finds the value of the last
component in fold order with the looked-up name, and falls back to the
initial dict. -/
theorem foldl_dict_lookup (hv : Component → Option Bool) :
    ∀ (cs : List Component) (d : List (String × Option Bool)) (n : String),
      dictLookup (cs.foldl (fun hits c => dictInsert hits c.name (hv c)) d) n
        = match lastWithName cs n with
          | some c => some (hv c)
          | none => dictLookup d n := by
  intro cs
  induction cs with
  | nil => intro d n; rfl
  | cons c cs ih =>
    intro d n
    show dictLookup (cs.foldl _ (dictInsert d c.name (hv c))) n = _
    rw [ih, dictLookup_insert]
    have hL : lastWithName (c :: cs) n
        = match lastWithName cs n with
          | some c2 => some c2
          | none => if c.name = n then some c else none := by
      show lastWithNameFrom (if c.name = n then some c else none) cs n = _
      rw [lastWithNameFrom_override]
    rw [hL]
    cases lastWithName cs n with
    | some c2 => rfl
    | none =>
      by_cases hc : c.name = n
      · simp [hc]
      · rw [if_neg hc]
        show (if n = c.name then some (hv c) else dictLookup d n) = dictLookup d n
        rw [if_neg (fun hh : n = c.name => hc hh.symm)]

/-- Helper: folding components with pairwise-new names grows the dict by
one entry each. -/
theorem foldl_dict_length_nodup (hv : Component → Option Bool) :
    ∀ (cs : List Component) (d : List (String × Option Bool)),
      (cs.map Component.name).Nodup →
      (∀ c ∈ cs, (dictLookup d c.name).isSome = false) →
      (cs.foldl (fun hits c => dictInsert hits c.name (hv c)) d).length
        = d.length + cs.length := by
  intro cs
  induction cs with
  | nil => intro d _ _; simp
  | cons c cs ih =>
    intro d hnd hfresh
    rw [List.map_cons, List.nodup_cons] at hnd
    have hfresh2 : ∀ c2 ∈ cs, (dictLookup (dictInsert d c.name (hv c)) c2.name).isSome = false := by
      intro c2 hc2
      rw [dictLookup_insert,
          if_neg (fun hh : c2.name = c.name =>
            hnd.1 (hh ▸ List.mem_map_of_mem Component.name hc2))]
      exact hfresh c2 (List.mem_cons_of_mem c hc2)
    show (cs.foldl _ (dictInsert d c.name (hv c))).length = _
    rw [ih (dictInsert d c.name (hv c)) hnd.2 hfresh2]
    have hf : (dictLookup d c.name).isSome = false := hfresh c (List.mem_cons_self c cs)
    rw [length_dictInsert, hf]
    simp only [Bool.false_eq_true, if_false, List.length_cons]
    omega

/-- Helper: the fold result never has more entries than the start plus
the number of folded components. -/
theorem foldl_dict_length_le (hv : Component → Option Bool) :
    ∀ (cs : List Component) (d : List (String × Option Bool)),
      (cs.foldl (fun hits c => dictInsert hits c.name (hv c)) d).length
        ≤ d.length + cs.length := by
  intro cs
  induction cs with
  | nil => intro d; simp
  | cons c cs ih =>
    intro d
    show (cs.foldl _ (dictInsert d c.name (hv c))).length ≤ _
    have h1 := ih (dictInsert d c.name (hv c))
    have h2 : (dictInsert d c.name (hv c)).length ≤ d.length + 1 := by
      rw [length_dictInsert]
      by_cases h : (dictLookup d c.name).isSome = true
      · rw [if_pos h]; omega
      · rw [if_neg h]
    simp only [List.length_cons]
    omega

/-- Helper: a duplicated name among the folded components, or a folded
name already present in the start dict, makes the fold result strictly
smaller than start plus component count. -/
theorem foldl_dict_length_lt (hv : Component → Option Bool) :
    ∀ (cs : List Component) (d : List (String × Option Bool)),
      (¬ (cs.map Component.name).Nodup ∨
        ∃ c ∈ cs, (dictLookup d c.name).isSome = true) →
      (cs.foldl (fun hits c => dictInsert hits c.name (hv c)) d).length
        < d.length + cs.length := by
  intro cs
  induction cs with
  | nil =>
    intro d h
    rcases h with h | ⟨c, hc, _⟩
    · exact absurd List.nodup_nil h
    · simp at hc
  | cons c cs ih =>
    intro d h
    show (cs.foldl _ (dictInsert d c.name (hv c))).length < _
    by_cases hck : (dictLookup d c.name).isSome = true
    · have hlen : (dictInsert d c.name (hv c)).length = d.length := by
        rw [length_dictInsert, if_pos hck]
      have hle := foldl_dict_length_le hv cs (dictInsert d c.name (hv c))
      rw [hlen] at hle
      simp only [List.length_cons]
      omega
    · have hlen : (dictInsert d c.name (hv c)).length = d.length + 1 := by
        rw [length_dictInsert, if_neg hck]
      have hih : ¬ (cs.map Component.name).Nodup ∨
          ∃ c2 ∈ cs, (dictLookup (dictInsert d c.name (hv c)) c2.name).isSome = true := by
        rcases h with hnd | ⟨c2, hc2, hsome⟩
        · rw [List.map_cons, List.nodup_cons] at hnd
          by_cases hmem : c.name ∈ cs.map Component.name
          · right
            obtain ⟨c2, hc2, hname⟩ := List.mem_map.mp hmem
            refine ⟨c2, hc2, ?_⟩
            rw [dictLookup_insert, if_pos hname]
            rfl
          · left
            exact fun hB => hnd ⟨hmem, hB⟩
        · rcases List.mem_cons.mp hc2 with rfl | hmem
          · exact absurd hsome hck
          · right
            refine ⟨c2, hmem, ?_⟩
            rw [dictLookup_insert]
            by_cases hh : c2.name = c.name
            · rw [if_pos hh]; rfl
            · rw [if_neg hh]; exact hsome
      have := ih (dictInsert d c.name (hv c)) hih
      rw [hlen] at this
      simp only [List.length_cons]
      omega

/-- Helper: stable insertion permutes to consing. -/
theorem insertSorted_perm (c : Component) :
    ∀ l : List Component, (insertSorted c l).Perm (c :: l) := by
  intro l
  induction l with
  | nil => exact List.Perm.refl _
  | cons x xs ih =>
    show (if strLe (get_name c) (get_name x) then c :: x :: xs
          else x :: insertSorted c xs).Perm (c :: x :: xs)
    by_cases h : strLe (get_name c) (get_name x)
    · rw [if_pos h]
    · rw [if_neg h]
      exact (ih.cons x).trans (List.Perm.swap c x xs)

/-- Helper: the stable sort is a permutation of its input. -/
theorem sortComponents_perm (comps : List Component) :
    (sortComponents comps).Perm comps := by
  induction comps with
  | nil => exact List.Perm.refl _
  | cons c cs ih =>
    show (insertSorted c (sortComponents cs)).Perm (c :: cs)
    exact (insertSorted_perm c _).trans (ih.cons c)

/-- C9: extract_hits keys its output dict by unqualified component name.
With pairwise distinct names it yields one entry per component, carrying
True for a non-None truthy result, False for a non-None falsy result and
None for an absent one.  In general a lookup returns the value of the
last component in get_name-sorted order with that name — a later
component overwrites an earlier one sharing its name — and with a
duplicated name the dict has strictly fewer entries than there are
components. -/
theorem c9_extract_hits_keying (comps : List Component) (results : Component → Option PyVal) :
    ((comps.map Component.name).Nodup →
      (extract_hits comps results).length = comps.length ∧
      ∀ c ∈ comps, dictLookup (extract_hits comps results) c.name
        = some (hitVal results c)) ∧
    (∀ n, dictLookup (extract_hits comps results) n
        = (lastWithName (sortComponents comps) n).map (hitVal results)) ∧
    (¬ (comps.map Component.name).Nodup →
      (extract_hits comps results).length < comps.length) := by
  have hperm := sortComponents_perm comps
  have hpermn : ((sortComponents comps).map Component.name).Perm (comps.map Component.name) :=
    hperm.map _
  have hchar : ∀ n, dictLookup (extract_hits comps results) n
      = (lastWithName (sortComponents comps) n).map (hitVal results) := by
    intro n
    show dictLookup ((sortComponents comps).foldl _ []) n = _
    rw [foldl_dict_lookup]
    cases lastWithName (sortComponents comps) n <;> rfl
  refine ⟨?_, hchar, ?_⟩
  · intro hnd
    have hnds : ((sortComponents comps).map Component.name).Nodup :=
      (hpermn.nodup_iff).mpr hnd
    constructor
    · show ((sortComponents comps).foldl _ []).length = comps.length
      rw [foldl_dict_length_nodup (hitVal results) _ [] hnds (fun c _ => rfl)]
      simpa using hperm.length_eq
    · intro c hc
      rw [hchar c.name, lastWithName_unique c (sortComponents comps) hnds (hperm.mem_iff.mpr hc)]
      rfl
  · intro hnd
    have hnds : ¬ ((sortComponents comps).map Component.name).Nodup :=
      fun hh => hnd ((hpermn.nodup_iff).mp hh)
    have hlt := foldl_dict_length_lt (hitVal results) (sortComponents comps) [] (Or.inl hnds)
    show ((sortComponents comps).foldl _ []).length < comps.length
    have hlen : (sortComponents comps).length = comps.length := hperm.length_eq
    simp only [List.length_nil, Nat.zero_add] at hlt
    omega

/-- Witness for C9: distinct names give one column per component with
the recorded boolean, and a shared name collapses two components into
one column. -/
theorem c9_witness :
    (extract_hits [compX, compY] (eenvScenario.results "a.tar")).length = 2 ∧
    dictLookup (extract_hits [compX, compY] (eenvScenario.results "a.tar")) "X"
      = some (hitVal (eenvScenario.results "a.tar") compX) ∧
    (extract_hits [compX, compX2] (eenvScenario.results "a.tar")).length < 2 := by
  refine ⟨?_, ?_, ?_⟩
  · exact ((c9_extract_hits_keying [compX, compY] (eenvScenario.results "a.tar")).1
      (by decide)).1
  · exact ((c9_extract_hits_keying [compX, compY] (eenvScenario.results "a.tar")).1
      (by decide)).2 compX (by decide)
  · exact (c9_extract_hits_keying [compX, compX2] (eenvScenario.results "a.tar")).2.2
      (by decide)

end RuleAnalysis
